import Mathlib

/-!
# Table / TableView / GraphicView of `script.js`

A shallow embedding of the table model, the join (element-wise average), the
editable view's event handlers and the plot transform of `src/script.js`,
with the properties stated for them.

Numbers are exact rationals.  A JavaScript value that is not a number
(`undefined`, read from beyond the end of an array, or `NaN`, produced by
`parseFloat` or by arithmetic on `undefined`) is kept as a value of its own,
so that every array read of the source has a result in the model.
-/

deriving instance DecidableEq for Except

namespace Graph

/-! ## Values -/

/-- The values stored in table cells and handed to the canvas: `undefined`,
`NaN`, or a number (an exact rational). -/
inductive JSVal where
  | undefined
  | nan
  | num (q : ℚ)
  deriving DecidableEq

namespace JSVal

/-- The numeric conversion applied by the arithmetic operators: `undefined`
converts to `NaN`, which is `none` here. -/
def toNumber : JSVal → Option ℚ
  | num q => some q
  | _ => none

/-- The operator `a + b` on numeric operands; `NaN` is absorbing. -/
def add (a b : JSVal) : JSVal :=
  match a.toNumber, b.toNumber with
  | some x, some y => num (x + y)
  | _, _ => nan

/-- The operator `a - b`. -/
def sub (a b : JSVal) : JSVal :=
  match a.toNumber, b.toNumber with
  | some x, some y => num (x - y)
  | _, _ => nan

/-- The operator `a * b`. -/
def mul (a b : JSVal) : JSVal :=
  match a.toNumber, b.toNumber with
  | some x, some y => num (x * y)
  | _, _ => nan

/-- The operator `a / b`.  The program divides by `values.length` in `average`
and by the constants of the plot.  The only zero divisor it can produce is
`values.length` of `average()` called without values, where the dividend is
`0` and the quotient is `NaN`, as here.  (A non-zero number over zero is an
infinity, which the exact numbers do not have and the program never
computes.) -/
def div (a b : JSVal) : JSVal :=
  match a.toNumber, b.toNumber with
  | some x, some y => if y = 0 then nan else num (x / y)
  | _, _ => nan

/-- The comparison `a < b`, false as soon as an operand is not a number. -/
def lt (a b : JSVal) : Bool :=
  match a.toNumber, b.toNumber with
  | some x, some y => decide (x < y)
  | _, _ => false

instance : Add JSVal := ⟨add⟩
instance : Sub JSVal := ⟨sub⟩
instance : Mul JSVal := ⟨mul⟩
instance : Div JSVal := ⟨div⟩

end JSVal

open JSVal (num)

/-- The exceptions of the program.  The two `throw new Error()` statements of
`Table.joinTables` carry no message; the constructors record which statement
threw (line 7: no table given, line 16: column counts differ).  `typeError` is
the `TypeError` raised by indexing `undefined`. -/
inductive Error where
  | emptyInput
  | columnMismatch
  | typeError
  deriving DecidableEq

/-- The element read `arr[i]` of an array of values: `undefined` beyond the
end. -/
def arrayGet (arr : List JSVal) (i : Nat) : JSVal :=
  arr[i]?.getD JSVal.undefined

/-- The element write `arr[i] = v` on an array of values: inside the array the
element is replaced; beyond the end the array grows to length `i + 1`, the
skipped positions being holes, which read as `undefined`. -/
def arraySet (arr : List JSVal) (i : Nat) (v : JSVal) : List JSVal :=
  if i < arr.length then arr.set i v
  else arr ++ List.replicate (i - arr.length) JSVal.undefined ++ [v]

/-- The function `average(...values)`: the `reduce` sums from `0`, the sum is
divided by `values.length`. -/
def average (values : List JSVal) : JSVal :=
  values.foldl (fun prev cur => prev + cur) (num 0) / num (values.length : ℚ)

/-- The call `Math.min(x, ...xs)` on array lengths. -/
def mathMin (x : Nat) (xs : List Nat) : Nat :=
  xs.foldl min x

/-! ## Table -/

/-- The private state of a `Table`: `#appearence` (the rows) and
`#columnsQuantity`. -/
structure Table where
  appearence : List (List JSVal)
  columnsQuantity : Nat
  deriving DecidableEq

namespace Table

/-- The constructor, `new Table(size)`: no rows. -/
def construct (size : Nat) : Table :=
  { appearence := [], columnsQuantity := size }

/-- The getter `rowsQuantity`. -/
def rowsQuantity (t : Table) : Nat :=
  t.appearence.length

/-- The method `getArray()`. -/
def getArray (t : Table) : List (List JSVal) :=
  t.appearence

/-- The method `addRow()`: pushes `Array(columnsQuantity).fill(0)`. -/
def addRow (t : Table) : Table :=
  { t with appearence := t.appearence ++ [List.replicate t.columnsQuantity (num 0)] }

/-- The method `getRow(index)`; `none` is `undefined`. -/
def getRow (t : Table) (index : Nat) : Option (List JSVal) :=
  t.appearence[index]?

/-- The method `deleteRow(i)`: keeps the rows whose index is not `i`. -/
def deleteRow (t : Table) (i : Nat) : Table :=
  { t with appearence := (t.appearence.enum.filter (fun p => p.1 != i)).map Prod.snd }

/-- The method `getItem(rowIndex, columIndex)`, that is
`#appearence[rowIndex][columIndex]`: a `TypeError` when there is no such row,
`undefined` when the row has no such column. -/
def getItem (t : Table) (rowIndex columIndex : Nat) : Except Error JSVal :=
  match t.appearence[rowIndex]? with
  | none => .error .typeError
  | some row => .ok (arrayGet row columIndex)

/-- The method `updateItem(rowIndex, columIndex, value)`, that is
`#appearence[rowIndex][columIndex] = value`. -/
def updateItem (t : Table) (rowIndex columIndex : Nat) (value : JSVal) :
    Except Error Table :=
  match t.appearence[rowIndex]? with
  | none => .error .typeError
  | some row =>
    .ok { t with appearence := t.appearence.set rowIndex (arraySet row columIndex value) }

/-- The row built at iteration `i` of the loop of `joinTables`:
`Array(size).fill(0).map((_, index) => average(...tables.map(table =>
table.#appearence[i][index])))`. -/
def joinRow (tables : List Table) (size i : Nat) : Except Error (List JSVal) :=
  ((List.replicate size (num 0)).enum).mapM fun p =>
    (tables.mapM fun (table : Table) => table.getItem i p.1).map average

/-- One iteration of the loop of `joinTables`: `table.addRow()`, the row
`newRow` is computed, then `table.#appearence[i] = newRow`.  At iteration `i`
the table has `i` rows before `addRow()`, so the assignment replaces the row
just pushed (`joinStep_ok`). -/
def joinStep (tables : List Table) (size : Nat) (table : Table) (i : Nat) :
    Except Error Table :=
  (joinRow tables size i).map fun newRow =>
    { table.addRow with appearence := table.addRow.appearence.set i newRow }

/-- The static method `Table.joinTables(...tables)`. -/
def joinTables (tables : List Table) : Except Error Table :=
  match tables with
  | [] => .error .emptyInput
  | [t] => .ok t
  | t0 :: rest =>
    let size := t0.columnsQuantity
    if !(tables.all fun table => table.columnsQuantity == size) then
      .error .columnMismatch
    else
      let minRows := mathMin t0.rowsQuantity (rest.map rowsQuantity)
      (List.range minRows).foldlM (joinStep tables size) (construct size)

/-- Cell `(i, j)` of a table read as `#appearence[i][j]` with both reads
total: `undefined` outside the rows or columns. -/
def cellD (t : Table) (i j : Nat) : JSVal :=
  arrayGet (t.appearence[i]?.getD []) j

/-- Row `i` of a join written as a list of averages, column by column. -/
def meanRow (tables : List Table) (size i : Nat) : List JSVal :=
  (List.range size).map fun j => average (tables.map fun t => t.cellD i j)

/-- The number of rows of a join of two or more tables. -/
def joinRows (t0 : Table) (rest : List Table) : Nat :=
  mathMin t0.rowsQuantity (rest.map rowsQuantity)

/-- The table `[[0,0],[1,1]]` of the join scenario. -/
def exampleA : Table :=
  { appearence := [[num 0, num 0], [num 1, num 1]], columnsQuantity := 2 }

/-- The table `[[0,2],[1,1],[2,2]]` of the join scenario. -/
def exampleB : Table :=
  { appearence := [[num 0, num 2], [num 1, num 1], [num 2, num 2]], columnsQuantity := 2 }

/-- A table of three columns. -/
def exampleC : Table :=
  { appearence := [[num 1, num 2, num 3]], columnsQuantity := 3 }

/-- The table `[[0,5]]`, reached by `new Table(2)`, two `addRow()`,
`deleteRow(0)` and `updateItem(0, 1, 5)`. -/
def exampleW : Table :=
  { appearence := [[num 0, num 5]], columnsQuantity := 2 }

/-- Every row has exactly `columnsQuantity` elements. -/
def RowsHaveWidth (t : Table) : Prop :=
  ∀ row ∈ t.appearence, row.length = t.columnsQuantity

/-- The tables obtained from `new Table(c)` by `addRow()`, `deleteRow(i)` with
any `i`, and `updateItem(r, col, v)` with `r < rowsQuantity` and `col < c`. -/
inductive Reachable (c : Nat) : Table → Prop where
  | construct : Reachable c (construct c)
  | addRow {t : Table} : Reachable c t → Reachable c t.addRow
  | deleteRow {t : Table} (i : Nat) : Reachable c t → Reachable c (t.deleteRow i)
  | updateItem {t t' : Table} (r col : Nat) (v : JSVal) :
      Reachable c t → r < t.rowsQuantity → col < c →
      t.updateItem r col v = .ok t' → Reachable c t'

/-- The method `Table.joinTables` on object references.  Tables live in a heap
and a reference is an index into it.  With one argument the result is `tables[0]`,
the reference that was passed, and nothing is allocated; with several the
result is the object allocated by `new Table(size)`. -/
def joinTablesRef (heap : List Table) (tables : List (Fin heap.length)) :
    Except Error (Nat × List Table) :=
  match tables with
  | [] => .error .emptyInput
  | [r] => .ok (r.val, heap)
  | _ => (joinTables (tables.map heap.get)).map fun t => (heap.length, heap ++ [t])

end Table

/-! ## RowView and TableView

The view keeps references to the row arrays of its table: a `RowView` holds the
array of its row, not a copy, and `updateItem` writes into that array.  Row
arrays therefore live in a heap, addressed by index, and the table of a view
is a list of addresses. -/

/-- A `RowView`: `#row` is the address of a row array (`none` is `undefined`),
`#editable` the flag. -/
structure RowView where
  row : Option Nat
  editable : Bool
  deriving DecidableEq

/-- A `TableView` with the arrays it reaches: `heap` holds the row arrays,
`appearence` and `columnsQuantity` are the fields of the owned `#table`,
`tableHtmlElement` tells whether `#tableHtmlElement` is set, `tableRows` is
`#tableRows`. -/
structure TableView where
  heap : List (List JSVal)
  appearence : List Nat
  columnsQuantity : Nat
  editable : Bool
  tableHtmlElement : Bool
  tableRows : List RowView
  deriving DecidableEq

namespace TableView

/-- The getter `table`, with the row arrays read from the heap. -/
def table (v : TableView) : Table :=
  { appearence := v.appearence.map fun a => v.heap[a]?.getD []
    columnsQuantity := v.columnsQuantity }

/-- The call `#table.addRow()`: a new array of zeros is allocated and pushed. -/
def tableAddRow (v : TableView) : TableView :=
  { v with
    heap := v.heap ++ [List.replicate v.columnsQuantity (num 0)]
    appearence := v.appearence ++ [v.heap.length] }

/-- The call `#table.deleteRow(i)`. -/
def tableDeleteRow (v : TableView) (i : Nat) : TableView :=
  { v with appearence := (v.appearence.enum.filter (fun p => p.1 != i)).map Prod.snd }

/-- The call `#table.updateItem(rowIndex, columIndex, value)`: the write goes
into the row array itself. -/
def tableUpdateItem (v : TableView) (rowIndex columIndex : Nat) (value : JSVal) :
    Except Error TableView :=
  match v.appearence[rowIndex]? with
  | none => .error .typeError
  | some a => .ok { v with heap := v.heap.set a (arraySet (v.heap[a]?.getD []) columIndex value) }

/-- The constructor: the field initialisers, then `#table.addRow()`. -/
def construct (editable : Bool) : TableView :=
  tableAddRow
    { heap := [], appearence := [], columnsQuantity := 2, editable := editable,
      tableHtmlElement := false, tableRows := [] }

/-- The method `getHTMLElement()`: on the first call one `RowView` per row of
the table is created and the element is built; later calls return that element.
The element itself and `#drawRows`, which only fills it and rewires the
callbacks, leave this state as it is. -/
def getHTMLElement (v : TableView) : TableView :=
  if v.tableHtmlElement then v
  else
    { v with
      tableRows := v.appearence.map fun a => { row := some a, editable := v.editable }
      tableHtmlElement := true }

/-- The method `#onActionButton()`, the listener of the Add / Calculate
button.  In a read-only view it calls the handler stored in `onActionButton`,
here `external`. -/
def onActionButton (external : TableView → TableView) (v : TableView) : TableView :=
  if v.editable then
    let v1 := v.tableAddRow
    let lastRow := v1.appearence[v1.appearence.length - 1]?
    { v1 with tableRows := v1.tableRows ++ [{ row := lastRow, editable := v1.editable }] }
  else external v

/-- The `onSave` callback wired by `#drawRows` to the `RowView` at position
`index`; `value` is `parseFloat` of the text of the field, a number or `NaN`. -/
def onSave (v : TableView) (index colIndex : Nat) (value : JSVal) : Except Error TableView :=
  v.tableUpdateItem index colIndex value

/-- The `onDelete` callback wired by `#drawRows` to the `RowView` at position
`index`. -/
def onDelete (v : TableView) (index : Nat) : TableView :=
  if v.table.rowsQuantity = 1 then v
  else
    let v1 := v.tableDeleteRow index
    { v1 with tableRows := (v1.tableRows.enum.filter (fun p => p.1 != index)).map Prod.snd }

/-- The callbacks that can run on a rendered view: the click on Add, the
`onSave` of a field losing focus, the `onDelete` of a Delete button.  The
position `index` is the one captured by the closure; it is not restricted to
the rows present, so the closures of rows already removed are covered too. -/
inductive Event where
  | add
  | save (index colIndex : Nat) (value : JSVal)
  | delete (index : Nat)
  deriving DecidableEq

/-- One event.  A handler that throws is abandoned; `onSave` throws before it
writes anything, so the state stays as it was. -/
def dispatch (external : TableView → TableView) (v : TableView) : Event → TableView
  | .add => v.onActionButton external
  | .save index colIndex value =>
    match v.onSave index colIndex value with
    | .ok v1 => v1
    | .error _ => v
  | .delete index => v.onDelete index

/-- A sequence of events, in order. -/
def run (external : TableView → TableView) (v : TableView) (events : List Event) : TableView :=
  events.foldl (dispatch external) v

/-- The state in which a view is put on the page: `new TableView(editable)`
followed by `getHTMLElement()`. -/
def initial (editable : Bool) : TableView :=
  (construct editable).getHTMLElement

/-- The addresses held by the table are allocated and pairwise distinct, and
the `RowView`s hold the row arrays of the table, position by position. -/
def Aligned (v : TableView) : Prop :=
  (∀ a ∈ v.appearence, a < v.heap.length) ∧ v.appearence.Nodup ∧
  v.tableRows.map RowView.row = v.appearence.map some

/-- The table after an event, computed with the methods of `Table` on the
table before it. -/
def tableAfter (t : Table) : Event → Table
  | .add => t.addRow
  | .save index colIndex value =>
    match t.updateItem index colIndex value with
    | .ok t1 => t1
    | .error _ => t
  | .delete index => if t.rowsQuantity = 1 then t else t.deleteRow index

end TableView

/-! ## GraphicView -/

/-- The calls made on the 2D context by `#drawGraphic`. -/
inductive CanvasCmd where
  | beginPath
  | fillRect (x y w h : JSVal)
  | moveTo (x y : JSVal)
  | lineTo (x y : JSVal)
  | stroke
  | closePath
  deriving DecidableEq

namespace GraphicView

/-- The function `getXCanvas` of `#drawGraphic`: `xAxis + point * scaleX`. -/
def getXCanvas (xAxis scaleX point : JSVal) : JSVal :=
  xAxis + point * scaleX

/-- The function `getYcanvas` of `#drawGraphic`: `yAxis - point * scaleY`. -/
def getYcanvas (yAxis scaleY point : JSVal) : JSVal :=
  yAxis - point * scaleY

/-- The read `arr[i]` of a row of the table, a `TypeError` being what any use
of the missing row raises. -/
def rowAt (arr : List (List JSVal)) (i : Nat) : Except Error (List JSVal) :=
  match arr[i]? with
  | none => .error .typeError
  | some row => .ok row

/-- The method `#drawGraphic(ctx, xAxis, yAxis, scaleX, scaleY)`: the calls
made on `ctx`, in order.  With no row the read `arr[0][0]` of the `moveTo`
throws, after `beginPath()`; the result is then the exception alone. -/
def drawGraphic (table : Table) (xAxis yAxis scaleX scaleY : JSVal) :
    Except Error (List CanvasCmd) := do
  let arr := table.getArray
  let row0 ← rowAt arr 0
  let square :=
    if arr.length = 1 then
      [CanvasCmd.fillRect
        (getXCanvas xAxis scaleX (arrayGet row0 0) - num (5 / 2))
        (getYcanvas yAxis scaleY (arrayGet row0 1) - num (5 / 2))
        (num 5) (num 5)]
    else []
  let start :=
    CanvasCmd.moveTo (getXCanvas xAxis scaleX (arrayGet row0 0))
      (getYcanvas yAxis scaleY (arrayGet row0 1))
  let lines ← (List.range' 1 (arr.length - 1)).mapM fun i => do
    let row ← rowAt arr i
    pure (CanvasCmd.lineTo (getXCanvas xAxis scaleX (arrayGet row 0))
      (getYcanvas yAxis scaleY (arrayGet row 1)))
  pure ([CanvasCmd.beginPath] ++ square ++ [start] ++ lines ++
    [CanvasCmd.stroke, CanvasCmd.closePath])

/-- The constant `scaleX` of `draw()`. -/
def scaleX : ℚ := 25

/-- The constant `scaleY` of `draw()`. -/
def scaleY : ℚ := 25

/-- The function `Math.round`: the nearest integer, halves going up. -/
def mathRound (q : ℚ) : ℤ :=
  Rat.floor (q + 1 / 2)

/-- The value `xAxis` of `draw()`, from the width of the canvas. -/
def xAxis (canvasWidth : ℚ) : ℚ :=
  mathRound (canvasWidth / scaleX / 2) * scaleX

/-- The value `yAxis` of `draw()`, from the height of the canvas. -/
def yAxis (canvasHeight : ℚ) : ℚ :=
  mathRound (canvasHeight / scaleY / 2) * scaleY

/-- The pixel position at which `#drawGraphic` puts a row. -/
def pixel (xAxis yAxis scaleX scaleY : JSVal) (row : List JSVal) : JSVal × JSVal :=
  (getXCanvas xAxis scaleX (arrayGet row 0), getYcanvas yAxis scaleY (arrayGet row 1))

/-- The square drawn for a table of one row, around the position `p`. -/
def squareAround (p : JSVal × JSVal) : CanvasCmd :=
  CanvasCmd.fillRect (p.1 - num (5 / 2)) (p.2 - num (5 / 2)) (num 5) (num 5)

/-- The centre of the rectangle of a `fillRect(x, y, w, h)`. -/
def centre : CanvasCmd → Option (JSVal × JSVal)
  | .fillRect x y w h => some (x + w / num 2, y + h / num 2)
  | _ => none

/-- The number of `lineTo` calls in a list of calls. -/
def countLineTo (cmds : List CanvasCmd) : Nat :=
  (cmds.filter fun cmd => match cmd with
    | .lineTo _ _ => true
    | _ => false).length

/-- The table `[[3,4]]` of the plot scenario. -/
def exampleP : Table :=
  { appearence := [[num 3, num 4]], columnsQuantity := 2 }

end GraphicView

/-! ## Lemmas on the join -/

theorem mapM_except_ok {ε α β : Type} (f : α → Except ε β) (g : α → β) (l : List α)
    (h : ∀ x ∈ l, f x = .ok (g x)) : l.mapM f = .ok (l.map g) := by
  induction l with
  | nil => rfl
  | cons a l ih =>
    have ha := h a (List.mem_cons_self a l)
    have hl := ih (fun x hx => h x (List.mem_cons_of_mem a hx))
    simp only [List.mapM_cons, ha, hl, List.map_cons]
    rfl

theorem enum_replicate_map {α β : Type} (a : α) (f : Nat → β) (n k : Nat) :
    ((List.replicate n a).enumFrom k).map (fun p => f p.1) = (List.range' k n).map f := by
  induction n generalizing k with
  | zero => rfl
  | succ n ih => simp [List.replicate_succ, List.enumFrom_cons, List.range'_succ, ih]

theorem set_length_append {α : Type} (l : List α) (a b : α) :
    (l ++ [a]).set l.length b = l ++ [b] := by
  induction l with
  | nil => rfl
  | cons x l ih => simp [ih]

theorem mathMin_le_head (x : Nat) (xs : List Nat) : mathMin x xs ≤ x := by
  unfold mathMin
  induction xs generalizing x with
  | nil => exact Nat.le_refl x
  | cons y ys ih => exact Nat.le_trans (ih (min x y)) (Nat.min_le_left x y)

theorem mathMin_le_mem (x : Nat) (xs : List Nat) : ∀ y ∈ xs, mathMin x xs ≤ y := by
  unfold mathMin
  induction xs generalizing x with
  | nil => intro y hy; cases hy
  | cons z zs ih =>
    intro y hy
    rcases List.mem_cons.mp hy with rfl | hy
    · exact Nat.le_trans (mathMin_le_head (min x y) zs) (Nat.min_le_right x y)
    · exact ih (min x z) y hy

theorem mathMin_mem (x : Nat) (xs : List Nat) : mathMin x xs ∈ x :: xs := by
  unfold mathMin
  induction xs generalizing x with
  | nil => simp
  | cons z zs ih =>
    have := ih (min x z)
    simp only [List.foldl_cons]
    rcases List.mem_cons.mp this with h | h
    · rw [h]
      rcases Nat.le_total x z with hxz | hxz
      · rw [Nat.min_eq_left hxz]; simp
      · rw [Nat.min_eq_right hxz]; simp
    · exact List.mem_cons_of_mem _ (List.mem_cons_of_mem _ h)

theorem enumFrom_filter_ne {α : Type} (l : List α) (k i : Nat) :
    ((l.enumFrom k).filter (fun p => p.1 != k + i)).map Prod.snd = l.eraseIdx i := by
  induction l generalizing k i with
  | nil => rfl
  | cons a l ih =>
    cases i with
    | zero =>
      have hall : ∀ p ∈ l.enumFrom (k + 1), (fun p : Nat × α => p.1 != k + 0) p = true := by
        intro p hp
        have := List.le_fst_of_mem_enumFrom hp
        simp only [bne_iff_ne, ne_eq, Nat.add_zero]
        omega
      simp only [List.enumFrom_cons, List.filter_cons, Nat.add_zero, bne_self_eq_false,
        Bool.false_eq_true, if_false, List.eraseIdx_cons_zero]
      rw [List.filter_eq_self.mpr (by simpa using hall)]
      simp [List.enumFrom_map_snd]
    | succ i =>
      have hk : (k != k + (i + 1)) = true := by
        simp only [bne_iff_ne, ne_eq]
        omega
      simp only [List.enumFrom_cons, List.filter_cons, hk, if_true, List.map_cons,
        List.eraseIdx_cons_succ]
      rw [show k + (i + 1) = (k + 1) + i by omega, ih]

theorem enum_filter_ne {α : Type} (l : List α) (i : Nat) :
    ((l.enum.filter (fun p => p.1 != i))).map Prod.snd = l.eraseIdx i := by
  have := enumFrom_filter_ne l 0 i
  simpa [List.enum] using this

theorem map_eraseIdx {α β : Type} (f : α → β) (l : List α) (i : Nat) :
    (l.eraseIdx i).map f = (l.map f).eraseIdx i := by
  induction l generalizing i with
  | nil => rfl
  | cons a l ih =>
    cases i with
    | zero => rfl
    | succ i => simp [ih]

theorem foldl_add_num (qs : List ℚ) (acc : ℚ) :
    (qs.map num).foldl (fun prev cur => prev + cur) (num acc) = num (acc + qs.sum) := by
  induction qs generalizing acc with
  | nil => simp
  | cons q qs ih =>
    simp only [List.map_cons, List.foldl_cons, List.sum_cons]
    show List.foldl _ (num (acc + q)) _ = _
    rw [ih, add_assoc]

theorem average_num (qs : List ℚ) (h : qs ≠ []) :
    average (qs.map num) = num (qs.sum / (qs.length : ℚ)) := by
  unfold average
  rw [foldl_add_num, List.length_map, zero_add]
  have hlen : (qs.length : ℚ) ≠ 0 := by
    have : qs.length ≠ 0 := fun h0 => h (List.length_eq_zero.mp h0)
    exact_mod_cast this
  show JSVal.div _ _ = _
  simp [JSVal.div, JSVal.toNumber, hlen]

namespace Table

theorem getItem_of_lt (t : Table) (i j : Nat) (h : i < t.rowsQuantity) :
    t.getItem i j = .ok (t.cellD i j) := by
  unfold rowsQuantity at h
  simp [getItem, cellD, List.getElem?_eq_getElem h]

theorem joinRow_ok (tables : List Table) (size i : Nat)
    (h : ∀ t ∈ tables, i < t.rowsQuantity) :
    joinRow tables size i = .ok (meanRow tables size i) := by
  unfold joinRow
  rw [mapM_except_ok _ (fun p => average (tables.map fun t => t.cellD i p.1))]
  · congr 1
    rw [List.enum, enum_replicate_map (num 0) (fun j => average (tables.map fun t => t.cellD i j))]
    simp [meanRow, List.range_eq_range']
  · intro p _
    rw [mapM_except_ok _ (fun t : Table => t.cellD i p.1)]
    · rfl
    · intro t ht
      exact getItem_of_lt t i p.1 (h t ht)

theorem joinStep_ok (tables : List Table) (size i : Nat) (rows : List (List JSVal))
    (hlen : rows.length = i) (h : ∀ t ∈ tables, i < t.rowsQuantity) :
    joinStep tables size ⟨rows, size⟩ i = .ok ⟨rows ++ [meanRow tables size i], size⟩ := by
  subst hlen
  simp only [joinStep, joinRow_ok tables size rows.length h, Except.map, addRow,
    set_length_append]

theorem joinLoop_ok (tables : List Table) (size n : Nat)
    (h : ∀ t ∈ tables, n ≤ t.rowsQuantity) :
    (List.range n).foldlM (joinStep tables size) (construct size)
      = .ok ⟨(List.range n).map (meanRow tables size), size⟩ := by
  induction n with
  | zero => rfl
  | succ n ih =>
    have ih := ih (fun t ht => Nat.le_of_succ_le (h t ht))
    have hstep := joinStep_ok tables size n ((List.range n).map (meanRow tables size))
      (by simp) (fun t ht => h t ht)
    rw [List.range_succ, List.foldlM_append, ih]
    simp only [List.foldlM_cons, List.foldlM_nil, List.map_append, List.map_cons, List.map_nil]
    show (joinStep tables size _ n >>= fun init => pure init) = _
    rw [hstep]
    rfl

theorem joinRows_le (t0 : Table) (rest : List Table) :
    ∀ t ∈ t0 :: rest, joinRows t0 rest ≤ t.rowsQuantity := by
  intro t ht
  rcases List.mem_cons.mp ht with rfl | ht
  · exact mathMin_le_head _ _
  · exact mathMin_le_mem _ _ _ (List.mem_map_of_mem rowsQuantity ht)

theorem joinRows_attained (t0 : Table) (rest : List Table) :
    ∃ t ∈ t0 :: rest, joinRows t0 rest = t.rowsQuantity := by
  have h := mathMin_mem t0.rowsQuantity (rest.map rowsQuantity)
  rcases List.mem_cons.mp h with h | h
  · exact ⟨t0, List.mem_cons_self _ _, h⟩
  · obtain ⟨t, ht, hEq⟩ := List.mem_map.mp h
    exact ⟨t, List.mem_cons_of_mem _ ht, hEq.symm⟩

/-- The join of two or more tables of equal column count, in closed form. -/
theorem joinTables_several (t0 t1 : Table) (rest : List Table) (c : Nat)
    (hc : ∀ t ∈ t0 :: t1 :: rest, t.columnsQuantity = c) :
    joinTables (t0 :: t1 :: rest) =
      .ok ⟨(List.range (joinRows t0 (t1 :: rest))).map (meanRow (t0 :: t1 :: rest) c), c⟩ := by
  have h0 : t0.columnsQuantity = c := hc t0 (List.mem_cons_self _ _)
  subst h0
  have hall : (t0 :: t1 :: rest).all (fun table => table.columnsQuantity == t0.columnsQuantity)
      = true := by
    rw [List.all_eq_true]
    intro t ht
    simp [hc t ht]
  unfold joinTables
  simp only [hall, Bool.not_true, Bool.false_eq_true, if_false]
  exact joinLoop_ok _ _ _ (joinRows_le t0 (t1 :: rest))

theorem joinTables_rows (t0 t1 : Table) (rest : List Table) (c i : Nat)
    (hi : i < joinRows t0 (t1 :: rest)) :
    (⟨(List.range (joinRows t0 (t1 :: rest))).map (meanRow (t0 :: t1 :: rest) c), c⟩ : Table).appearence[i]?
      = some (meanRow (t0 :: t1 :: rest) c i) := by
  simp [hi]

theorem arrayGet_meanRow (tables : List Table) (c i j : Nat) (hj : j < c) :
    arrayGet (meanRow tables c i) j = average (tables.map fun t => t.cellD i j) := by
  simp [arrayGet, meanRow, hj]

/-! ## The join -/

/-- C1: for two or more tables of equal column count `c`, a row index `i` below
every row count and a column index `j < c`, the join succeeds and its cell
`(i, j)` is `average` of the cells `(i, j)` of the inputs, taken in order; when
these cells are the numbers `qs`, it is the number `qs.sum / n`, `n` the number
of tables. -/
theorem joinTables_cell_is_mean (tables : List Table) (c i j : Nat)
    (h2 : 2 ≤ tables.length) (hc : ∀ t ∈ tables, t.columnsQuantity = c)
    (hi : ∀ t ∈ tables, i < t.rowsQuantity) (hj : j < c) :
    ∃ r cells, joinTables tables = .ok r ∧
      tables.mapM (fun t => t.getItem i j) = .ok cells ∧
      r.getItem i j = .ok (average cells) ∧
      ∀ qs : List ℚ, cells = qs.map num →
        r.getItem i j = .ok (num (qs.sum / (tables.length : ℚ))) := by
  match tables, h2 with
  | t0 :: t1 :: rest, _ =>
    have hm : i < joinRows t0 (t1 :: rest) := by
      obtain ⟨t, ht, hEq⟩ := joinRows_attained t0 (t1 :: rest)
      rw [hEq]
      exact hi t ht
    have hget : (⟨(List.range (joinRows t0 (t1 :: rest))).map (meanRow (t0 :: t1 :: rest) c), c⟩ :
        Table).getItem i j
        = .ok (average ((t0 :: t1 :: rest).map fun t => t.cellD i j)) := by
      unfold getItem
      rw [joinTables_rows t0 t1 rest c i hm]
      show Except.ok (arrayGet _ j) = _
      rw [arrayGet_meanRow _ c i j hj]
    refine ⟨_, (t0 :: t1 :: rest).map (fun t => t.cellD i j),
      joinTables_several t0 t1 rest c hc, ?_, hget, ?_⟩
    · exact mapM_except_ok _ _ _ (fun t ht => getItem_of_lt t i j (hi t ht))
    · intro qs hqs
      rw [hget, hqs]
      have hlen : qs.length = (t0 :: t1 :: rest).length := by
        have := congrArg List.length hqs
        simpa using this.symm
      have hne : qs ≠ [] := by
        intro h0
        rw [h0] at hlen
        simp at hlen
      rw [average_num qs hne, hlen]

/-- C2: for a non-empty list of tables of equal column count `c`, the join
succeeds; its column count is `c` and its row count is the least row count of
the inputs (below every input's and equal to one of them). -/
theorem joinTables_dimensions (tables : List Table) (c : Nat)
    (hne : tables ≠ []) (hc : ∀ t ∈ tables, t.columnsQuantity = c) :
    ∃ r, joinTables tables = .ok r ∧ r.columnsQuantity = c ∧
      (∀ t ∈ tables, r.rowsQuantity ≤ t.rowsQuantity) ∧
      (∃ t ∈ tables, r.rowsQuantity = t.rowsQuantity) := by
  match tables, hne with
  | [t], _ =>
    refine ⟨t, rfl, hc t (List.mem_singleton_self t), ?_, t, List.mem_singleton_self t, rfl⟩
    intro u hu
    rw [List.mem_singleton.mp hu]
  | t0 :: t1 :: rest, _ =>
    refine ⟨_, joinTables_several t0 t1 rest c hc, rfl, ?_, ?_⟩
    · intro t ht
      simpa [rowsQuantity] using joinRows_le t0 (t1 :: rest) t ht
    · obtain ⟨t, ht, hEq⟩ := joinRows_attained t0 (t1 :: rest)
      exact ⟨t, ht, by simpa [rowsQuantity] using hEq⟩

/-- C3: the join of no table fails at the first `throw` (`emptyInput`); the
join of two or more tables one of which has a column count other than the
first table's fails at the second `throw` (`columnMismatch`); the join of one
table, or of several tables of equal column count, returns a table. -/
theorem joinTables_failures (tables : List Table) :
    (tables = [] → joinTables tables = .error .emptyInput) ∧
    (∀ t0 rest, tables = t0 :: rest → rest ≠ [] →
      (∃ t ∈ tables, t.columnsQuantity ≠ t0.columnsQuantity) →
      joinTables tables = .error .columnMismatch) ∧
    (∀ t0 rest, tables = t0 :: rest →
      (rest = [] ∨ ∀ t ∈ tables, t.columnsQuantity = t0.columnsQuantity) →
      ∃ r, joinTables tables = .ok r) := by
  refine ⟨?_, ?_, ?_⟩
  · intro h
    rw [h]
    rfl
  · intro t0 rest h hrest hex
    subst h
    match rest, hrest with
    | t1 :: rest, _ =>
      have hall : (t0 :: t1 :: rest).all (fun table => table.columnsQuantity == t0.columnsQuantity)
          = false := by
        rw [List.all_eq_false]
        obtain ⟨t, ht, hne⟩ := hex
        exact ⟨t, ht, by simpa using hne⟩
      unfold joinTables
      simp only [hall, Bool.not_false, if_true]
  · intro t0 rest h hor
    subst h
    match rest with
    | [] => exact ⟨t0, rfl⟩
    | t1 :: rest =>
      rcases hor with h | h
      · cases h
      · exact ⟨_, joinTables_several t0 t1 rest t0.columnsQuantity h⟩

/-- C4: the join of a single table `t` returns `t` itself: as a value, the
same column count and the same rows; as an object, the reference that was
passed, with no table allocated and none modified. -/
theorem joinTables_single (t : Table) :
    joinTables [t] = .ok t ∧
    ∀ (heap : List Table) (r : Fin heap.length),
      joinTablesRef heap [r] = .ok (r.val, heap) :=
  ⟨rfl, fun _ _ => rfl⟩

/-- The join scenario: `[[0,0],[1,1]]` and `[[0,2],[1,1],[2,2]]` join to
`[[0,1],[1,1]]`, and cell `(0, 1)` is obtained from the general statement. -/
theorem joinTables_cell_is_mean_witness :
    joinTables [exampleA, exampleB]
      = .ok { appearence := [[num 0, num 1], [num 1, num 1]], columnsQuantity := 2 } ∧
    2 ≤ [exampleA, exampleB].length ∧
    (∀ t ∈ [exampleA, exampleB], t.columnsQuantity = 2) ∧
    (∀ t ∈ [exampleA, exampleB], 0 < t.rowsQuantity) ∧
    ∃ r cells, joinTables [exampleA, exampleB] = .ok r ∧
      [exampleA, exampleB].mapM (fun t => t.getItem 0 1) = .ok cells ∧
      r.getItem 0 1 = .ok (average cells) ∧
      ∀ qs : List ℚ, cells = qs.map num →
        r.getItem 0 1 = .ok (num (qs.sum / (([exampleA, exampleB] : List Table).length : ℚ))) :=
  ⟨by decide!, by decide, by decide, by decide,
    joinTables_cell_is_mean [exampleA, exampleB] 2 0 1 (by decide) (by decide) (by decide)
      (by decide)⟩

/-- The dimensions of the join scenario: two columns, two rows. -/
theorem joinTables_dimensions_witness :
    [exampleA, exampleB] ≠ [] ∧
    (∀ t ∈ [exampleA, exampleB], t.columnsQuantity = 2) ∧
    ∃ r, joinTables [exampleA, exampleB] = .ok r ∧ r.columnsQuantity = 2 ∧
      (∀ t ∈ [exampleA, exampleB], r.rowsQuantity ≤ t.rowsQuantity) ∧
      (∃ t ∈ [exampleA, exampleB], r.rowsQuantity = t.rowsQuantity) :=
  ⟨by decide, by decide,
    joinTables_dimensions [exampleA, exampleB] 2 (by decide) (by decide)⟩

/-- The three cases at concrete inputs: no table, a table of two columns with
one of three, and the join scenario. -/
theorem joinTables_failures_witness :
    joinTables [] = .error .emptyInput ∧
    joinTables [exampleA, exampleC] = .error .columnMismatch ∧
    ∃ r, joinTables [exampleA, exampleB] = .ok r :=
  ⟨(joinTables_failures []).1 rfl,
    (joinTables_failures [exampleA, exampleC]).2.1 exampleA [exampleC] rfl (by decide)
      ⟨exampleC, by decide, by decide⟩,
    (joinTables_failures [exampleA, exampleB]).2.2 exampleA [exampleB] rfl
      (Or.inr (by decide))⟩

/-! ## Rows -/

theorem deleteRow_appearence (t : Table) (i : Nat) :
    (t.deleteRow i).appearence = t.appearence.eraseIdx i :=
  enum_filter_ne t.appearence i

theorem arraySet_length (row : List JSVal) (col : Nat) (v : JSVal) (h : col < row.length) :
    (arraySet row col v).length = row.length := by
  simp [arraySet, h]

theorem reachable_invariant (c : Nat) (t : Table) (h : Reachable c t) :
    t.columnsQuantity = c ∧ RowsHaveWidth t := by
  induction h with
  | construct =>
    refine ⟨rfl, ?_⟩
    intro row hrow
    cases hrow
  | addRow _ ih =>
    refine ⟨ih.1, ?_⟩
    intro row hrow
    simp only [addRow, List.mem_append, List.mem_singleton] at hrow
    rcases hrow with hrow | hrow
    · exact ih.2 row hrow
    · rw [hrow]
      simp [addRow]
  | deleteRow i _ ih =>
    refine ⟨ih.1, ?_⟩
    intro row hrow
    rw [deleteRow_appearence] at hrow
    exact ih.2 row (List.mem_of_mem_eraseIdx hrow)
  | @updateItem t t' r col v _ hr hcol hupd ih =>
    unfold Table.updateItem at hupd
    unfold rowsQuantity at hr
    rw [List.getElem?_eq_getElem hr] at hupd
    simp only [Except.ok.injEq] at hupd
    subst hupd
    refine ⟨ih.1, ?_⟩
    intro row hrow
    have hold : t.appearence[r].length = t.columnsQuantity :=
      ih.2 _ (List.getElem_mem hr)
    rcases List.mem_or_eq_of_mem_set hrow with hrow | hrow
    · exact ih.2 row hrow
    · rw [hrow, arraySet_length _ _ _ (by rw [hold, ih.1]; exact hcol)]
      exact hold

theorem meanRow_length (tables : List Table) (c i : Nat) :
    (meanRow tables c i).length = c := by
  simp [meanRow]

theorem joinTables_ok_columns (t0 t1 : Table) (rest : List Table) (r : Table)
    (h : joinTables (t0 :: t1 :: rest) = .ok r) :
    ∀ t ∈ t0 :: t1 :: rest, t.columnsQuantity = t0.columnsQuantity := by
  unfold joinTables at h
  cases hall : (t0 :: t1 :: rest).all
      (fun table => table.columnsQuantity == t0.columnsQuantity) with
  | true =>
    intro t ht
    have := List.all_eq_true.mp hall t ht
    simpa using this
  | false =>
    simp only [hall, Bool.not_false, if_true] at h
    cases h

theorem exampleW_reachable : Reachable 2 exampleW :=
  Reachable.updateItem 0 1 (num 5)
    (Reachable.deleteRow 0 (Reachable.addRow (Reachable.addRow Reachable.construct)))
    (by decide) (by decide) (by decide!)

/-- C5: every table obtained from `new Table(c)` by `addRow()`, `deleteRow(i)`
with any `i` and `updateItem(r, col, v)` with `r < rowsQuantity` and `col < c`
has column count `c` and rows of exactly `c` elements, and so has every table
that `joinTables` returns on a list of such tables. -/
theorem row_width_invariant (c : Nat) :
    (∀ t, Reachable c t → t.columnsQuantity = c ∧ RowsHaveWidth t) ∧
    (∀ tables r, (∀ t ∈ tables, Reachable c t) → joinTables tables = .ok r →
      r.columnsQuantity = c ∧ RowsHaveWidth r) := by
  refine ⟨reachable_invariant c, ?_⟩
  intro tables r hreach hjoin
  match tables with
  | [] => cases hjoin
  | [t] =>
    have hr : r = t := by
      have : Except.ok t = (Except.ok r : Except Error Table) := hjoin
      cases this
      rfl
    rw [hr]
    exact reachable_invariant c t (hreach t (List.mem_singleton_self t))
  | t0 :: t1 :: rest =>
    have hc : ∀ t ∈ t0 :: t1 :: rest, t.columnsQuantity = c :=
      fun t ht => (reachable_invariant c t (hreach t ht)).1
    rw [joinTables_several t0 t1 rest c hc] at hjoin
    cases hjoin
    refine ⟨rfl, ?_⟩
    intro row hrow
    obtain ⟨i, _, hi⟩ := List.mem_map.mp hrow
    rw [← hi]
    exact meanRow_length _ c i

/-- The invariant at `[[0,5]]`, a table reached by two `addRow()`, a
`deleteRow(0)` and an `updateItem(0, 1, 5)`, and at its join with itself. -/
theorem row_width_invariant_witness :
    Reachable 2 exampleW ∧
    joinTables [exampleW, exampleW] = .ok exampleW ∧
    (exampleW.columnsQuantity = 2 ∧ RowsHaveWidth exampleW) ∧
    (exampleW.columnsQuantity = 2 ∧ RowsHaveWidth exampleW) :=
  ⟨exampleW_reachable, by decide!,
    (row_width_invariant 2).1 exampleW exampleW_reachable,
    (row_width_invariant 2).2 [exampleW, exampleW] exampleW
      (fun t ht => by
        rcases List.mem_cons.mp ht with h | h
        · rw [h]; exact exampleW_reachable
        · rw [List.mem_singleton.mp h]; exact exampleW_reachable)
      (by decide!)⟩

/-- C6: on a table of `n` rows, `deleteRow(i)` with `i < n` leaves `n - 1`
rows; the rows before `i` stay where they were and each later row moves down
by one position, so that positions `0 .. n - 2` are all occupied. -/
theorem deleteRow_shifts (t : Table) (i : Nat) (h : i < t.rowsQuantity) :
    (t.deleteRow i).rowsQuantity = t.rowsQuantity - 1 ∧
    (∀ k, k < i → (t.deleteRow i).getRow k = t.getRow k) ∧
    (∀ k, i ≤ k → k < t.rowsQuantity - 1 → (t.deleteRow i).getRow k = t.getRow (k + 1)) ∧
    (∀ k, k < t.rowsQuantity - 1 → ((t.deleteRow i).getRow k).isSome = true) := by
  unfold rowsQuantity getRow at *
  rw [deleteRow_appearence]
  refine ⟨List.length_eraseIdx_of_lt h, ?_, ?_, ?_⟩
  · intro k hk
    rw [List.getElem?_eraseIdx, if_pos hk]
  · intro k hk _
    rw [List.getElem?_eraseIdx, if_neg (Nat.not_lt.mpr hk)]
  · intro k hk
    have hlen : k < (t.appearence.eraseIdx i).length := by
      rw [List.length_eraseIdx_of_lt h]
      exact hk
    rw [List.getElem?_eq_getElem hlen]
    rfl

/-- Deleting row `1` of `[[0,2],[1,1],[2,2]]` leaves `[[0,2],[2,2]]`. -/
theorem deleteRow_shifts_witness :
    (exampleB.deleteRow 1).appearence = [[num 0, num 2], [num 2, num 2]] ∧
    1 < exampleB.rowsQuantity ∧
    (exampleB.deleteRow 1).rowsQuantity = exampleB.rowsQuantity - 1 ∧
    (∀ k, k < 1 → (exampleB.deleteRow 1).getRow k = exampleB.getRow k) ∧
    (∀ k, 1 ≤ k → k < exampleB.rowsQuantity - 1 →
      (exampleB.deleteRow 1).getRow k = exampleB.getRow (k + 1)) ∧
    (∀ k, k < exampleB.rowsQuantity - 1 → ((exampleB.deleteRow 1).getRow k).isSome = true) :=
  ⟨by decide!, by decide, deleteRow_shifts exampleB 1 (by decide)⟩

/-- C7: after `deleteRow(i)` and then `addRow()`, for any `i`, the column
count is what it was, there is one row more than after the deletion, the
last row is `columnsQuantity` zeros, and the rows left by the deletion are
unchanged. -/
theorem deleteRow_addRow (t : Table) (i : Nat) :
    (t.deleteRow i).addRow.columnsQuantity = t.columnsQuantity ∧
    (t.deleteRow i).addRow.rowsQuantity = (t.deleteRow i).rowsQuantity + 1 ∧
    (t.deleteRow i).addRow.getRow ((t.deleteRow i).addRow.rowsQuantity - 1)
      = some (List.replicate t.columnsQuantity (num 0)) ∧
    (∀ k, k < (t.deleteRow i).rowsQuantity →
      (t.deleteRow i).addRow.getRow k = (t.deleteRow i).getRow k) := by
  refine ⟨rfl, ?_, ?_, ?_⟩
  · simp [addRow, rowsQuantity]
  · simp [addRow, rowsQuantity, getRow, deleteRow]
  · intro k hk
    unfold rowsQuantity at hk
    simp only [addRow, getRow]
    rw [List.getElem?_append_left hk]

/-- Deleting row `0` of `[[0,0],[1,1]]` and adding a row gives
`[[1,1],[0,0]]`. -/
theorem deleteRow_addRow_witness :
    (exampleA.deleteRow 0).addRow.appearence = [[num 1, num 1], [num 0, num 0]] ∧
    (exampleA.deleteRow 0).addRow.columnsQuantity = exampleA.columnsQuantity ∧
    (exampleA.deleteRow 0).addRow.rowsQuantity = (exampleA.deleteRow 0).rowsQuantity + 1 ∧
    (exampleA.deleteRow 0).addRow.getRow ((exampleA.deleteRow 0).addRow.rowsQuantity - 1)
      = some (List.replicate exampleA.columnsQuantity (num 0)) ∧
    (∀ k, k < (exampleA.deleteRow 0).rowsQuantity →
      (exampleA.deleteRow 0).addRow.getRow k = (exampleA.deleteRow 0).getRow k) :=
  ⟨by decide!, deleteRow_addRow exampleA 0⟩

end Table

/-! ## The editable view -/

namespace TableView

theorem table_rowsQuantity (v : TableView) : v.table.rowsQuantity = v.appearence.length := by
  simp [table, Table.rowsQuantity]

theorem dispatch_editable (external : TableView → TableView) (v : TableView) (e : Event)
    (h : v.editable = true) : (dispatch external v e).editable = true := by
  cases e with
  | add => simp [dispatch, onActionButton, h, tableAddRow]
  | save index colIndex value =>
    simp only [dispatch, onSave, tableUpdateItem]
    cases v.appearence[index]? with
    | none => exact h
    | some a => exact h
  | delete index =>
    simp only [dispatch, onDelete]
    split
    · exact h
    · exact h

theorem dispatch_rows (external : TableView → TableView) (v : TableView) (e : Event)
    (hed : v.editable = true) (h : 1 ≤ v.appearence.length) :
    1 ≤ (dispatch external v e).appearence.length := by
  cases e with
  | add => simp [dispatch, onActionButton, hed, tableAddRow]
  | save index colIndex value =>
    simp only [dispatch, onSave, tableUpdateItem]
    cases v.appearence[index]? with
    | none => exact h
    | some a => exact h
  | delete index =>
    simp only [dispatch, onDelete, table_rowsQuantity]
    split
    · exact h
    · rename_i hne
      simp only [tableDeleteRow, enum_filter_ne, List.length_eraseIdx]
      split <;> omega

theorem run_invariant (external : TableView → TableView) (v : TableView) (events : List Event)
    (hed : v.editable = true) (h : 1 ≤ v.appearence.length) :
    (run external v events).editable = true ∧ 1 ≤ (run external v events).appearence.length := by
  induction events generalizing v with
  | nil => exact ⟨hed, h⟩
  | cons e events ih =>
    exact ih (dispatch external v e) (dispatch_editable external v e hed)
      (dispatch_rows external v e hed h)

theorem aligned_initial (editable : Bool) : Aligned (initial editable) := by
  refine ⟨?_, ?_, ?_⟩
  · intro a ha
    simp [initial, construct, getHTMLElement, tableAddRow] at ha ⊢
    omega
  · simp [initial, construct, getHTMLElement, tableAddRow]
  · simp [initial, construct, getHTMLElement, tableAddRow]

theorem aligned_tableAddRow (v : TableView) (h : Aligned v) :
    (∀ a ∈ v.tableAddRow.appearence, a < v.tableAddRow.heap.length) ∧
    v.tableAddRow.appearence.Nodup := by
  obtain ⟨hv, hn, _⟩ := h
  constructor
  · intro a ha
    simp only [tableAddRow, List.mem_append, List.mem_singleton, List.length_append,
      List.length_singleton] at ha ⊢
    rcases ha with ha | ha
    · exact Nat.lt_succ_of_lt (hv a ha)
    · omega
  · simp only [tableAddRow]
    rw [List.nodup_append]
    refine ⟨hn, List.nodup_singleton _, ?_⟩
    intro a ha hb
    rw [List.mem_singleton] at hb
    have := hv a ha
    omega

theorem aligned_dispatch (external : TableView → TableView) (v : TableView) (e : Event)
    (hed : v.editable = true) (h : Aligned v) : Aligned (dispatch external v e) := by
  cases e with
  | add =>
    obtain ⟨hv, hn⟩ := aligned_tableAddRow v h
    refine ⟨?_, ?_, ?_⟩
    · simpa [dispatch, onActionButton, hed] using hv
    · simpa [dispatch, onActionButton, hed] using hn
    · simp [dispatch, onActionButton, hed, tableAddRow, h.2.2]
  | save index colIndex value =>
    simp only [dispatch, onSave, tableUpdateItem]
    cases v.appearence[index]? with
    | none => exact h
    | some a =>
      refine ⟨?_, h.2.1, h.2.2⟩
      intro b hb
      simpa using h.1 b hb
  | delete index =>
    simp only [dispatch, onDelete]
    split
    · exact h
    · simp only [tableDeleteRow, enum_filter_ne]
      refine ⟨?_, ?_, ?_⟩
      · intro a ha
        exact h.1 a (List.mem_of_mem_eraseIdx ha)
      · exact List.Nodup.sublist (List.eraseIdx_sublist _ _) h.2.1
      · rw [map_eraseIdx, map_eraseIdx, h.2.2]

theorem aligned_run (external : TableView → TableView) (v : TableView) (events : List Event)
    (hed : v.editable = true) (h : Aligned v) : Aligned (run external v events) := by
  induction events generalizing v with
  | nil => exact h
  | cons e events ih =>
    exact ih (dispatch external v e) (dispatch_editable external v e hed)
      (aligned_dispatch external v e hed h)

theorem table_tableAddRow (v : TableView) (h : Aligned v) :
    v.tableAddRow.table = v.table.addRow := by
  simp only [table, tableAddRow, Table.addRow, List.map_append, List.map_cons, List.map_nil,
    Table.mk.injEq, and_true]
  congr 1
  · apply List.map_congr_left
    intro a ha
    rw [List.getElem?_append_left (h.1 a ha)]
  · simp

theorem table_tableDeleteRow (v : TableView) (i : Nat) :
    (v.tableDeleteRow i).table = v.table.deleteRow i := by
  simp only [table, tableDeleteRow, Table.deleteRow, enum_filter_ne, map_eraseIdx]

theorem table_tableUpdateItem (v : TableView) (r c : Nat) (x : JSVal) (h : Aligned v) :
    (v.tableUpdateItem r c x).map table = v.table.updateItem r c x := by
  unfold tableUpdateItem Table.updateItem
  simp only [table, List.getElem?_map]
  cases hr : v.appearence[r]? with
  | none => rfl
  | some a =>
    simp only [Option.map_some', Except.map, Table.mk.injEq, and_true, Except.ok.injEq]
    obtain ⟨hlt, ha⟩ := List.getElem?_eq_some.mp hr
    have hva : a < v.heap.length := h.1 a (ha ▸ List.getElem_mem hlt)
    show Table.mk _ _ = Table.mk _ _
    congr 1
    apply List.ext_getElem?
    intro k
    rw [List.getElem?_map, List.getElem?_set, List.getElem?_map, List.length_map]
    by_cases hk : r = k
    · subst hk
      simp [hr, hlt, hva]
    · rw [if_neg hk]
      cases hb : v.appearence[k]? with
      | none => rfl
      | some b =>
        obtain ⟨hkl, hbk⟩ := List.getElem?_eq_some.mp hb
        have hne : a ≠ b := by
          intro hab
          apply hk
          rw [← ha, ← hbk] at hab
          exact (List.Nodup.getElem_inj_iff h.2.1).mp hab
        simp [List.getElem?_set, hne]

theorem onSave_ok (v : TableView) (index colIndex : Nat) (value : JSVal) (h : Aligned v)
    (hi : index < v.tableRows.length) : ∃ v1, v.onSave index colIndex value = .ok v1 := by
  have hlen : v.tableRows.length = v.appearence.length := by
    have := congrArg List.length h.2.2
    simpa using this
  rw [hlen] at hi
  simp [onSave, tableUpdateItem, List.getElem?_eq_getElem hi]

/-- In an editable view each event acts on the owned table as the methods of
`Table` do. -/
theorem dispatch_table (external : TableView → TableView) (v : TableView) (e : Event)
    (hed : v.editable = true) (h : Aligned v) :
    (dispatch external v e).table = tableAfter v.table e := by
  cases e with
  | add =>
    simp only [dispatch, onActionButton, hed, if_true, tableAfter]
    exact table_tableAddRow v h
  | save index colIndex value =>
    have hsim := table_tableUpdateItem v index colIndex value h
    simp only [dispatch, onSave, tableAfter]
    cases hu : v.tableUpdateItem index colIndex value with
    | error err =>
      rw [hu] at hsim
      rw [← hsim]
      rfl
    | ok v1 =>
      rw [hu] at hsim
      rw [← hsim]
      rfl
  | delete index =>
    simp only [dispatch, onDelete, tableAfter]
    split
    · rfl
    · exact table_tableDeleteRow v index

/-- C8: in an editable view, after any sequence of Add clicks, save callbacks
and delete callbacks (of any row position, with any column and value) applied
to the state in which the view is put on the page, the table has at least one
row; and a delete callback that runs when the table has exactly one row
changes nothing: the table and the collection of `RowView`s are as before. -/
theorem tableView_keeps_a_row (external : TableView → TableView) (events : List Event) :
    (initial true).table.rowsQuantity = 1 ∧
    1 ≤ (run external (initial true) events).table.rowsQuantity ∧
    ∀ index, (run external (initial true) events).table.rowsQuantity = 1 →
      dispatch external (run external (initial true) events) (.delete index)
        = run external (initial true) events := by
  refine ⟨rfl, ?_, ?_⟩
  · rw [table_rowsQuantity]
    exact (run_invariant external (initial true) events rfl (Nat.le_refl 1)).2
  · intro index h
    simp only [dispatch, onDelete, h, if_true]

/-- An Add click, a save and two delete callbacks on the first row: the second
delete finds one row and leaves the state as it is. -/
theorem tableView_keeps_a_row_witness :
    (run id (initial true) [.add, .save 1 0 (num 3), .delete 0]).table
      = { appearence := [[num 3, num 0]], columnsQuantity := 2 } ∧
    dispatch id (run id (initial true) [.add, .save 1 0 (num 3), .delete 0]) (.delete 0)
      = run id (initial true) [.add, .save 1 0 (num 3), .delete 0] :=
  ⟨by decide!,
    (tableView_keeps_a_row id [.add, .save 1 0 (num 3), .delete 0]).2.2 0 (by decide!)⟩

end TableView

/-! ## The plot -/

theorem num_add (x y : ℚ) : num x + num y = num (x + y) := rfl

theorem num_sub (x y : ℚ) : num x - num y = num (x - y) := rfl

theorem num_mul (x y : ℚ) : num x * num y = num (x * y) := rfl

theorem num_div (x y : ℚ) (h : y ≠ 0) : num x / num y = num (x / y) := by
  show JSVal.div _ _ = _
  simp [JSVal.div, JSVal.toNumber, h]

theorem num_lt (x y : ℚ) : JSVal.lt (num x) (num y) = decide (x < y) := rfl

namespace GraphicView

theorem getXCanvas_num (xAxis scale v : ℚ) :
    getXCanvas (num xAxis) (num scale) (num v) = num (xAxis + v * scale) := rfl

theorem getYcanvas_num (yAxis scale v : ℚ) :
    getYcanvas (num yAxis) (num scale) (num v) = num (yAxis - v * scale) := rfl

/-- C9: with the scales of `draw()`, on numbers, `getXCanvas` is
`xAxis + v * 25` and `getYcanvas` is `yAxis - v * 25`; for `a < b` the pixel
abscissa of `a` is below that of `b` and the pixel ordinate of `a` is above
that of `b`; `(p - xAxis) / scaleX` and `(yAxis - p) / scaleY` give the value
back from the pixel; both maps are injective. -/
theorem transform_linear_invertible (xAxis yAxis a b : ℚ) :
    getXCanvas (num xAxis) (num scaleX) (num a) = num (xAxis + a * 25) ∧
    getYcanvas (num yAxis) (num scaleY) (num a) = num (yAxis - a * 25) ∧
    (a < b →
      JSVal.lt (getXCanvas (num xAxis) (num scaleX) (num a))
        (getXCanvas (num xAxis) (num scaleX) (num b)) = true ∧
      JSVal.lt (getYcanvas (num yAxis) (num scaleY) (num b))
        (getYcanvas (num yAxis) (num scaleY) (num a)) = true) ∧
    (getXCanvas (num xAxis) (num scaleX) (num a) - num xAxis) / num scaleX = num a ∧
    (num yAxis - getYcanvas (num yAxis) (num scaleY) (num a)) / num scaleY = num a ∧
    (getXCanvas (num xAxis) (num scaleX) (num a)
      = getXCanvas (num xAxis) (num scaleX) (num b) → a = b) ∧
    (getYcanvas (num yAxis) (num scaleY) (num a)
      = getYcanvas (num yAxis) (num scaleY) (num b) → a = b) := by
  have h25 : (25 : ℚ) ≠ 0 := by norm_num
  simp only [getXCanvas_num, getYcanvas_num, scaleX, scaleY, num_sub, num_lt, num_div _ _ h25,
    decide_eq_true_eq, JSVal.num.injEq]
  refine ⟨trivial, trivial, ?_, ?_, ?_, ?_, ?_⟩
  · intro h
    constructor <;> linarith
  · field_simp
  · field_simp
  · intro h
    linarith
  · intro h
    linarith

/-- The transform at the values `3 < 4` with the axes at `250`. -/
theorem transform_linear_invertible_witness :
    getXCanvas (num 250) (num scaleX) (num 3) = num 325 ∧
    getYcanvas (num 250) (num scaleY) (num 4) = num 150 ∧
    JSVal.lt (getXCanvas (num 250) (num scaleX) (num 3))
      (getXCanvas (num 250) (num scaleX) (num 4)) = true ∧
    JSVal.lt (getYcanvas (num 250) (num scaleY) (num 4))
      (getYcanvas (num 250) (num scaleY) (num 3)) = true :=
  ⟨by decide!, by decide!,
    (transform_linear_invertible 250 250 3 4).2.2.1 (by norm_num)⟩

theorem range_map_tail {α β : Type} (f : α → β) (d : α) (x : α) (rest : List α) :
    (List.range' 1 rest.length).map (fun i => f ((x :: rest)[i]?.getD d)) = rest.map f := by
  apply List.ext_getElem
  · simp
  · intro i h1 h2
    simp only [List.length_map, List.length_range'] at h1
    simp [List.getElem_range', Nat.add_comm 1 i, List.getElem?_eq_getElem h1]

theorem countLineTo_drawn (pre : List CanvasCmd) (f : List JSVal → JSVal × JSVal)
    (rest : List (List JSVal)) (hpre : countLineTo pre = 0) :
    countLineTo (pre ++ rest.map (fun row => CanvasCmd.lineTo (f row).1 (f row).2) ++
      [CanvasCmd.stroke, CanvasCmd.closePath]) = rest.length := by
  unfold countLineTo at *
  simp only [List.filter_append, List.length_append, hpre]
  have : (List.filter (fun cmd => match cmd with
      | CanvasCmd.lineTo _ _ => true
      | _ => false) (rest.map (fun row => CanvasCmd.lineTo (f row).1 (f row).2)))
      = rest.map (fun row => CanvasCmd.lineTo (f row).1 (f row).2) := by
    rw [List.filter_eq_self]
    intro cmd hcmd
    obtain ⟨row, _, hrow⟩ := List.mem_map.mp hcmd
    rw [← hrow]
  rw [this]
  simp

/-- C10: for a table whose rows are `row0 :: rest` (so `n = rest.length + 1`
rows), `#drawGraphic` returns, and the calls it makes on the context are
`beginPath`, then the filled square exactly when `rest` is empty (`n = 1`),
then `moveTo` at the pixel position of row 0, then one `lineTo` per later row
at its pixel position, in row order (`n - 1` of them, none when `n = 1`), then
`stroke` and `closePath`; the square has sides 5 and is centred on the pixel
position of row 0 when that position is a pair of numbers. -/
theorem drawGraphic_commands (table : Table) (xAxis yAxis scaleX scaleY : JSVal)
    (row0 : List JSVal) (rest : List (List JSVal)) (h : table.getArray = row0 :: rest) :
    ∃ cmds, drawGraphic table xAxis yAxis scaleX scaleY = .ok cmds ∧
      cmds = [CanvasCmd.beginPath] ++
        (if rest = [] then [squareAround (pixel xAxis yAxis scaleX scaleY row0)] else []) ++
        [CanvasCmd.moveTo (pixel xAxis yAxis scaleX scaleY row0).1
          (pixel xAxis yAxis scaleX scaleY row0).2] ++
        rest.map (fun row => CanvasCmd.lineTo (pixel xAxis yAxis scaleX scaleY row).1
          (pixel xAxis yAxis scaleX scaleY row).2) ++
        [CanvasCmd.stroke, CanvasCmd.closePath] ∧
      countLineTo cmds = table.rowsQuantity - 1 ∧
      (squareAround (pixel xAxis yAxis scaleX scaleY row0) ∈ cmds ↔ table.rowsQuantity = 1) ∧
      ∀ px py : ℚ, pixel xAxis yAxis scaleX scaleY row0 = (num px, num py) →
        squareAround (pixel xAxis yAxis scaleX scaleY row0)
          = CanvasCmd.fillRect (num (px - 5 / 2)) (num (py - 5 / 2)) (num 5) (num 5) ∧
        centre (squareAround (pixel xAxis yAxis scaleX scaleY row0)) = some (num px, num py) := by
  have hrows : table.rowsQuantity = rest.length + 1 := by
    have := congrArg List.length h
    simpa [Table.getArray, Table.rowsQuantity] using this
  have hlines : (List.range' 1 ((row0 :: rest).length - 1)).mapM (fun i => do
        let row ← rowAt (row0 :: rest) i
        pure (CanvasCmd.lineTo (getXCanvas xAxis scaleX (arrayGet row 0))
          (getYcanvas yAxis scaleY (arrayGet row 1))))
      = (.ok (rest.map (fun row => CanvasCmd.lineTo (pixel xAxis yAxis scaleX scaleY row).1
          (pixel xAxis yAxis scaleX scaleY row).2)) : Except Error (List CanvasCmd)) := by
    rw [mapM_except_ok _ (fun i => CanvasCmd.lineTo
        (pixel xAxis yAxis scaleX scaleY ((row0 :: rest)[i]?.getD [])).1
        (pixel xAxis yAxis scaleX scaleY ((row0 :: rest)[i]?.getD [])).2)]
    · congr 1
      exact range_map_tail (fun row => CanvasCmd.lineTo (pixel xAxis yAxis scaleX scaleY row).1
        (pixel xAxis yAxis scaleX scaleY row).2) [] row0 rest
    · intro i hi
      have hlt : i < (row0 :: rest).length := by
        have := List.mem_range'_1.mp hi
        simp only [List.length_cons, Nat.add_sub_cancel] at this ⊢
        omega
      simp only [rowAt, List.getElem?_eq_getElem hlt]
      rfl
  have hone : ((row0 :: rest).length = 1) ↔ rest = [] := by
    simp
  refine ⟨_, ?_, rfl, ?_, ?_, ?_⟩
  · unfold drawGraphic
    rw [h]
    have h0 : rowAt (row0 :: rest) 0 = .ok row0 := by simp [rowAt]
    simp only [hlines, h0]
    by_cases hr : rest = []
    · simp only [hone.mpr hr, hr, if_true]
      rfl
    · have h1 : ¬ (row0 :: rest).length = 1 := fun hc => hr (hone.mp hc)
      simp only [h1, hr, if_false]
      rfl
  · rw [hrows, Nat.add_sub_cancel]
    have := countLineTo_drawn ([CanvasCmd.beginPath] ++
        (if rest = [] then [squareAround (pixel xAxis yAxis scaleX scaleY row0)] else []) ++
        [CanvasCmd.moveTo (pixel xAxis yAxis scaleX scaleY row0).1
          (pixel xAxis yAxis scaleX scaleY row0).2])
      (pixel xAxis yAxis scaleX scaleY) rest (by
        by_cases hr : rest = [] <;> simp [hr, countLineTo, squareAround])
    exact this
  · rw [hrows]
    by_cases hr : rest = []
    · simp [hr]
    · have hlen : rest.length ≠ 0 := fun h0 => hr (List.length_eq_zero.mp h0)
      simp [hr, squareAround, hlen]
  · intro px py hp
    rw [hp]
    have h2 : (2 : ℚ) ≠ 0 := by norm_num
    simp only [squareAround, centre, num_sub, num_add, num_div _ _ h2, true_and, Option.some.injEq,
      Prod.mk.injEq, JSVal.num.injEq]
    constructor <;> ring

/-- The plot scenario: the one-row table `[[3,4]]` with the axes at `250` and
the scale `25` gives a square of side 5 with corner `(322.5, 147.5)`, centred
at `(325, 150)`, a `moveTo` there, and no `lineTo`. -/
theorem drawGraphic_commands_witness :
    xAxis 500 = 250 ∧ yAxis 500 = 250 ∧
    exampleP.getArray = [[num 3, num 4]] ∧
    drawGraphic exampleP (num 250) (num 250) (num scaleX) (num scaleY)
      = .ok [CanvasCmd.beginPath,
          CanvasCmd.fillRect (num (645 / 2)) (num (295 / 2)) (num 5) (num 5),
          CanvasCmd.moveTo (num 325) (num 150), CanvasCmd.stroke, CanvasCmd.closePath] ∧
    centre (CanvasCmd.fillRect (num (645 / 2)) (num (295 / 2)) (num 5) (num 5))
      = some (num 325, num 150) ∧
    ∃ cmds, drawGraphic exampleP (num 250) (num 250) (num scaleX) (num scaleY) = .ok cmds ∧
      countLineTo cmds = exampleP.rowsQuantity - 1 :=
  ⟨by decide!, by decide!, rfl, by decide!, by decide!,
    (drawGraphic_commands exampleP (num 250) (num 250) (num scaleX) (num scaleY)
      [num 3, num 4] [] rfl).imp fun _ hc => ⟨hc.1, hc.2.2.1⟩⟩

end GraphicView

end Graph
